import Mathlib

/-!
# Verification of the drone-s3 upload plugin (`plugin.go`)

A shallow embedding of the plugin's single source file.  External
collaborators (the `zglob` glob library, the filesystem, the gzip
compressor and the S3 client) are modelled as an explicit environment
record of functions; everything the plugin itself computes (`matches`,
`contentType`, the target-key computation, the upload loop `Exec`) is
translated directly from the Go source.
-/

namespace DroneS3

/-- Model of Go `strings.HasPrefix s pre`. -/
def goStartsWith (s pre : String) : Bool :=
  pre.data.isPrefixOf s.data

/-- Split a path string at `/` separators (helper for `filepathClean`). -/
def splitSlash (s : String) : List String :=
  s.split (· == '/')

/-- One step of path cleaning: process one component against the stack of
already-kept components (stored in reverse).  Mirrors the component
semantics of Go `path/filepath.Clean` on Unix: empty and `.` components
vanish, `..` pops a previous component, a `..` at the root vanishes, and
leading `..`s of a relative path accumulate. -/
def cleanStep (rooted : Bool) (acc : List String) (c : String) : List String :=
  if c = "" ∨ c = "." then acc
  else if c = ".." then
    match acc with
    | [] => if rooted then [] else [".."]
    | a :: rest => if a = ".." then c :: acc else rest
  else c :: acc

/-- Model of Go `path/filepath.Clean` (Unix separator), via its standard
component-based description. -/
def filepathClean (path : String) : String :=
  if path = "" then "."
  else
    let rooted := goStartsWith path "/"
    let comps := ((splitSlash path).foldl (cleanStep rooted) []).reverse
    let out := String.intercalate "/" comps
    if rooted then "/" ++ out
    else if out = "" then "." else out

/-- Model of Go `path/filepath.Join` on two elements: skip leading empty
elements, join the rest with `/` and clean the result. -/
def filepathJoin (a b : String) : String :=
  if a ≠ "" then filepathClean (a ++ "/" ++ b)
  else if b ≠ "" then filepathClean b
  else ""

/-- Scan the characters of a path keeping the suffix that starts at the
last dot of the final path element (helper for `filepathExt`). -/
def filepathExtCore : List Char → Option (List Char) → Option (List Char)
  | [], best => best
  | c :: rest, best =>
    if c = '/' then filepathExtCore rest none
    else if c = '.' then filepathExtCore rest (some (c :: rest))
    else filepathExtCore rest best

/-- Model of Go `path/filepath.Ext`: the suffix beginning at the final dot
in the final slash-separated element, `""` when there is no dot. -/
def filepathExt (path : String) : String :=
  match filepathExtCore path.data none with
  | none => ""
  | some cs => String.mk cs

/-- Modelled from Go's `mime` package builtin extension table (the plugin
runs with no system mime table loaded beyond the builtin entries). -/
def builtinMimeTypes : List (String × String) :=
  [(".css", "text/css; charset=utf-8"),
   (".gif", "image/gif"),
   (".htm", "text/html; charset=utf-8"),
   (".html", "text/html; charset=utf-8"),
   (".jpeg", "image/jpeg"),
   (".jpg", "image/jpeg"),
   (".js", "application/javascript"),
   (".json", "application/json"),
   (".pdf", "application/pdf"),
   (".png", "image/png"),
   (".svg", "image/svg+xml"),
   (".wasm", "application/wasm"),
   (".webp", "image/webp"),
   (".xml", "text/xml; charset=utf-8")]

/-- ASCII lowercasing of a string (Go lowercases the extension before the
builtin-table lookup). -/
def toLowerStr (s : String) : String :=
  String.mk (s.data.map Char.toLower)

/-- Model of Go `mime.TypeByExtension` restricted to the builtin table:
returns `""` when the extension is unknown. -/
def mimeTypeByExtension (ext : String) : String :=
  match builtinMimeTypes.lookup (toLowerStr ext) with
  | some t => t
  | none => ""

/-- Translation of `contentType` from `plugin.go`: content type by file
extension, `application/octet-stream` when unknown. -/
def contentType (path : String) : String :=
  let ext := filepathExt path
  let typ := mimeTypeByExtension ext
  if typ = "" then "application/octet-stream" else typ

/-- The glob collaborator (`zglob.Glob`): a pattern either expands to an
ordered list of paths or fails. -/
abbrev GlobFn := String → Except String (List String)

/-- The exclusion accumulation loop of `matches` in `plugin.go`: expand
every exclude pattern and collect all results (the Go code inserts them
into a `map[string]bool`; only membership is ever consulted, so the set is
modelled by the collected list). -/
def excludeSet (glob : GlobFn) (exclude : List String) : Except String (List String) :=
  exclude.foldlM (fun acc pattern => do
    let excludes ← glob pattern
    return acc ++ excludes) []

/-- Translation of `matches` from `plugin.go` (`matches` and `include` are
Lean keywords, hence the renaming): expand the include pattern, and unless
the exclude list is empty, filter out every path that some exclude pattern
expands to. -/
def globMatches (glob : GlobFn) (includePat : String) (exclude : List String) :
    Except String (List String) := do
  let ms ← glob includePat
  if exclude.length = 0 then
    return ms
  else
    let excludem ← excludeSet glob exclude
    return ms.filter (fun m => !excludem.contains m)

/-- Translation of the `Plugin` parameter struct from `plugin.go` (field
names as in the source). -/
structure Plugin where
  Endpoint : String
  Key : String
  Secret : String
  Bucket : String
  Region : String
  Access : String
  Source : String
  Target : String
  Recursive : Bool
  Exclude : List String
  PathStyle : Bool
  DryRun : Bool
  Compress : Bool
  deriving Repr, DecidableEq

/-- Result of `os.Stat`: the plugin only consults `IsDir`. -/
structure FileInfo where
  IsDir : Bool
  deriving Repr, DecidableEq

/-- An opened file handle: its byte contents and, when the subsequent
read (the `io.Copy` into the gzip writer) fails, the read error. -/
structure FileData where
  bytes : List Nat
  readErr : Option String
  deriving Repr, DecidableEq

/-- The `s3.PutObjectInput` request issued per file (fields the plugin
sets; the body is the byte stream the request carries). -/
structure PutObjectInput where
  Bucket : String
  Key : String
  ACL : String
  ContentType : String
  ContentEncoding : Option String
  Body : List Nat
  deriving Repr, DecidableEq

/-- The external world of one run: glob expansion, `os.Stat`, `os.Open`,
the gzip encoder, and the S3 `PutObject` response (`none` = success). -/
structure Env where
  glob : GlobFn
  stat : String → Option FileInfo
  openFile : String → Except String FileData
  gzip : List Nat → List Nat
  putResult : PutObjectInput → Option String

/-- Observable events of one run, in order: stat calls, directory skips,
the per-file "Uploading file" log line, file opens, and issued PutObject
requests. -/
inductive Event where
  | statted (path : String) (result : Option FileInfo)
  | skippedDir (path : String)
  | logUpload (name bucket target contentType : String)
  | openedFile (path : String)
  | putCalled (input : PutObjectInput)
  deriving Repr, DecidableEq

/-- The PutObject requests contained in a trace. -/
def putsOf (evs : List Event) : List PutObjectInput :=
  evs.filterMap (fun e => match e with | .putCalled i => some i | _ => none)

/-- The file opens contained in a trace. -/
def opensOf (evs : List Event) : List String :=
  evs.filterMap (fun e => match e with | .openedFile f => some f | _ => none)

/-- Target-key computation from `Plugin.Exec` (`plugin.go` lines 113-116):
join the target prefix with the matched path and force a leading slash. -/
def targetKey (tgt m : String) : String :=
  let target := filepathJoin tgt m
  if goStartsWith target "/" then target else "/" ++ target

deriving instance DecidableEq for Except

/-- Outcome of processing: the plugin state after the call (`Exec` has a
pointer receiver, so the receiver is threaded explicitly), the trace of
events, and the returned error if any. -/
structure StepResult where
  plugin : Plugin
  events : List Event
  result : Except String Unit
  deriving Repr, DecidableEq

/-- One iteration of the upload loop in `Plugin.Exec` for a single matched
path: stat (silently skipping on failure), skip directories, compute the
target key and content type, log, stop before opening under dry-run,
open the file, optionally gzip (an `io.Copy` error aborts), and issue the
PutObject request. -/
def uploadFile (p : Plugin) (env : Env) (m : String) : StepResult :=
  match env.stat m with
  | none => ⟨p, [.statted m none], .ok ()⟩
  | some st =>
    if st.IsDir then ⟨p, [.statted m (some st), .skippedDir m], .ok ()⟩
    else
      let target := targetKey p.Target m
      let content := contentType m
      let ev0 := [Event.statted m (some st), Event.logUpload m p.Bucket target content]
      if p.DryRun then ⟨p, ev0, .ok ()⟩
      else
        match env.openFile m with
        | .error e => ⟨p, ev0, .error e⟩
        | .ok f =>
          let ev1 := ev0 ++ [Event.openedFile m]
          if p.Compress then
            match f.readErr with
            | some e => ⟨p, ev1, .error e⟩
            | none =>
              let input : PutObjectInput :=
                ⟨p.Bucket, target, p.Access, content, some "gzip", env.gzip f.bytes⟩
              let ev2 := ev1 ++ [Event.putCalled input]
              ⟨p, ev2, match env.putResult input with
                       | some e => .error e
                       | none => .ok ()⟩
          else
            let input : PutObjectInput :=
              ⟨p.Bucket, target, p.Access, content, none, f.bytes⟩
            let ev2 := ev1 ++ [Event.putCalled input]
            ⟨p, ev2, match env.putResult input with
                     | some e => .error e
                     | none => .ok ()⟩

/-- The upload loop of `Plugin.Exec`: process the matched paths in order,
stopping at the first iteration that returns an error. -/
def execLoop (env : Env) : Plugin → List String → StepResult
  | p, [] => ⟨p, [], .ok ()⟩
  | p, m :: rest =>
    match uploadFile p env m with
    | ⟨p', evs, .error e⟩ => ⟨p', evs, .error e⟩
    | ⟨p', evs, .ok ()⟩ =>
      let r := execLoop env p' rest
      ⟨r.plugin, evs ++ r.events, r.result⟩

/-- Translation of `Plugin.Exec` from `plugin.go`: resolve the match set
(returning the glob error on failure), then run the upload loop. -/
def Exec (p : Plugin) (env : Env) : StepResult :=
  match globMatches env.glob p.Source p.Exclude with
  | .error e => ⟨p, [], .error e⟩
  | .ok ms => execLoop env p ms

/-- Spec-side normalization: collapse a double leading slash to a single
one, leaving every other string unchanged. -/
def collapseLeadingSlash (s : String) : String :=
  match s.data with
  | '/' :: '/' :: rest => String.mk ('/' :: rest)
  | _ => s

/-- A sample glob collaborator used by concrete witnesses. -/
def globW : GlobFn := fun p =>
  if p = "*.txt" then .ok ["a.txt", "b.txt", "c.txt"]
  else if p = "b*" then .ok ["b.txt"]
  else .error "no match"

theorem length_zero_iff_nil {α : Type} (l : List α) : l.length = 0 ↔ l = [] := by
  cases l <;> simp

/-- C8: with an empty exclude list the matcher returns the include
expansion unchanged — it is the identity on the glob result, elements,
order and error behavior included. -/
theorem matches_empty_exclude_identity (glob : GlobFn) (includePat : String) :
    globMatches glob includePat [] = glob includePat := by
  unfold globMatches
  cases h : glob includePat <;> simp [h, Bind.bind, Except.bind, pure, Except.pure]

/-- C1: with a non-empty exclude list whose expansions combine to `E`, the
matcher returns exactly the elements of the include expansion `I` that are
not members of `E`, as a filter of `I` — preserving `I`'s order and its
non-excluded duplicates. -/
theorem matches_filters_excluded (glob : GlobFn) (includePat : String)
    (exclude : List String) (I E : List String)
    (hI : glob includePat = .ok I) (hne : exclude ≠ [])
    (hE : excludeSet glob exclude = .ok E) :
    globMatches glob includePat exclude = .ok (I.filter (fun m => !E.contains m)) := by
  unfold globMatches
  have hlen : ¬ exclude.length = 0 := by
    simpa [length_zero_iff_nil] using hne
  simp [hI, hE, hlen, Bind.bind, Except.bind, pure, Except.pure]

/-- Witness for C1 at a concrete glob environment. -/
theorem matches_filters_excluded_witness :
    globMatches globW "*.txt" ["b*"] =
      .ok (["a.txt", "b.txt", "c.txt"].filter (fun m => !(["b.txt"]).contains m)) :=
  matches_filters_excluded globW "*.txt" ["b*"] ["a.txt", "b.txt", "c.txt"] ["b.txt"]
    rfl (by decide) rfl

/-- C6: the content-type resolver is total: it never returns the empty
string, and whenever the extension is absent or unknown to the lookup
table it returns exactly `application/octet-stream`. -/
theorem contentType_total (path : String) :
    contentType path ≠ "" ∧
    (mimeTypeByExtension (filepathExt path) = "" →
      contentType path = "application/octet-stream") ∧
    (filepathExt path = "" → contentType path = "application/octet-stream") := by
  refine ⟨?_, ?_, ?_⟩
  · by_cases h : mimeTypeByExtension (filepathExt path) = ""
    · simp only [contentType, h, if_pos]
      decide
    · simp only [contentType, if_neg h]
      exact h
  · intro h
    simp only [contentType, h, if_pos]
  · intro h
    simp only [contentType, h]
    decide

/-- Witness for C6 at the spec's sample inputs. -/
theorem contentType_total_witness :
    contentType "noext" = "application/octet-stream" ∧
    contentType "file.unknownext" = "application/octet-stream" :=
  ⟨(contentType_total "noext").2.2 (by decide),
   (contentType_total "file.unknownext").2.1 (by decide)⟩

theorem goStartsWith_slash_cons (c : Char) (l : List Char) :
    goStartsWith (String.mk (c :: l)) "/" = ('/' == c) := by
  have hd : "/".data = ['/'] := rfl
  simp [goStartsWith, hd, List.isPrefixOf]

/-- C5: the computed object key always starts with `/` and equals
`"/" ++ join(target, path)` with an accidental double leading slash
collapsed to a single one. -/
theorem targetKey_absolute (t m : String) :
    goStartsWith (targetKey t m) "/" = true ∧
    targetKey t m = collapseLeadingSlash ("/" ++ filepathJoin t m) := by
  unfold targetKey collapseLeadingSlash
  cases hj : filepathJoin t m with
  | mk data =>
    cases data with
    | nil => decide
    | cons c rest =>
      by_cases hc : c = '/'
      · subst hc
        have h1 : goStartsWith (String.mk ('/' :: rest)) "/" = true := by
          simp [goStartsWith_slash_cons]
        have h2 : ("/" ++ String.mk ('/' :: rest)) = String.mk ('/' :: '/' :: rest) := by
          apply String.ext
          simp [String.data_append]
        simp [h1, h2]
      · have h1 : goStartsWith (String.mk (c :: rest)) "/" = false := by
          rw [goStartsWith_slash_cons]
          simp [Ne.symm hc]
        have h2 : ("/" ++ String.mk (c :: rest)) = String.mk ('/' :: c :: rest) := by
          apply String.ext
          simp [String.data_append]
        refine ⟨?_, ?_⟩
        · simp [h1, h2, goStartsWith_slash_cons]
        · simp only [h1, Bool.false_eq_true, if_false, h2]
          have hne : ∀ x, ('/' :: c :: rest) = '/' :: '/' :: x → False := by
            intro x hx
            exact hc (by injection hx with _ h3; injection h3)
          split
          · rename_i rest' heq
            exact absurd heq (hne rest')
          · rfl

theorem uploadFile_plugin (p : Plugin) (env : Env) (m : String) :
    (uploadFile p env m).plugin = p := by
  unfold uploadFile
  repeat' split <;> try rfl

theorem execLoop_plugin (env : Env) (ms : List String) (p : Plugin) :
    (execLoop env p ms).plugin = p := by
  induction ms generalizing p with
  | nil => rfl
  | cons m rest ih =>
    unfold execLoop
    cases hu : uploadFile p env m with
    | mk p' evs r =>
      have hp' : p' = p := by
        have h := uploadFile_plugin p env m
        rw [hu] at h
        exact h
      cases r with
      | error e => simpa using hp'
      | ok u =>
        cases u
        simpa using (ih p').trans hp'

theorem execLoop_ok_cons (env : Env) (p : Plugin) (m : String) (rest : List String)
    (h : (uploadFile p env m).result = .ok ()) :
    execLoop env p (m :: rest) =
      ⟨(execLoop env p rest).plugin,
       (uploadFile p env m).events ++ (execLoop env p rest).events,
       (execLoop env p rest).result⟩ := by
  cases hu : uploadFile p env m with
  | mk p' evs r =>
    have hp' : p' = p := by
      have h2 := uploadFile_plugin p env m
      rw [hu] at h2
      exact h2
    rw [hu] at h
    subst hp'
    cases r with
    | error e => exact absurd h (by simp)
    | ok u =>
      cases u
      conv_lhs => unfold execLoop
      rw [hu]

theorem execLoop_error_cons (env : Env) (p : Plugin) (m : String) (rest : List String)
    (e : String) (h : (uploadFile p env m).result = .error e) :
    execLoop env p (m :: rest) = ⟨p, (uploadFile p env m).events, .error e⟩ := by
  cases hu : uploadFile p env m with
  | mk p' evs r =>
    have hp' : p' = p := by
      have h2 := uploadFile_plugin p env m
      rw [hu] at h2
      exact h2
    rw [hu] at h
    subst hp'
    cases r with
    | error e' =>
      simp only [Except.error.injEq] at h
      subst h
      conv_lhs => unfold execLoop
      rw [hu]
    | ok u => exact absurd h (by simp)

/-- Concatenated traces of a list of per-file iterations. -/
def eventsConcat (p : Plugin) (env : Env) : List String → List Event
  | [] => []
  | m :: rest => (uploadFile p env m).events ++ eventsConcat p env rest

/-- A sample plugin configuration used by concrete witnesses. -/
def pW : Plugin :=
  ⟨"http://localhost:9000", "AK", "SK", "bkt", "us-east-1", "private",
   "*.txt", "bundle", false, [], true, false, false⟩

/-- A sample environment used by concrete witnesses: three text files, a
directory, a missing entry, and one file whose open fails. -/
def envW : Env where
  glob := globW
  stat := fun q =>
    if q = "dir" then some ⟨true⟩
    else if q = "missing" then none
    else some ⟨false⟩
  openFile := fun q =>
    if q = "b.txt" then .error "open b.txt: permission denied"
    else .ok ⟨[104, 105], none⟩
  gzip := fun bs => 31 :: 139 :: bs
  putResult := fun _ => none

/-- C7: a matched path whose stat fails is skipped silently: its iteration
succeeds, records only the stat event, and the loop continues with the
remaining paths, returning whatever they produce. -/
theorem stat_failure_skips (p : Plugin) (env : Env) (m : String) (rest : List String)
    (h : env.stat m = none) :
    (uploadFile p env m).result = .ok () ∧
    (uploadFile p env m).events = [.statted m none] ∧
    (execLoop env p (m :: rest)).result = (execLoop env p rest).result ∧
    (execLoop env p (m :: rest)).events =
      .statted m none :: (execLoop env p rest).events := by
  have hu : uploadFile p env m = ⟨p, [.statted m none], .ok ()⟩ := by
    simp [uploadFile, h]
  have hc := execLoop_ok_cons env p m rest (by rw [hu])
  refine ⟨by rw [hu], by rw [hu], by rw [hc], ?_⟩
  rw [hc, hu]
  rfl

/-- Witness for C7: the missing entry is skipped and the remaining file is
still processed. -/
theorem stat_failure_skips_witness :
    (uploadFile pW envW "missing").result = .ok () ∧
    (uploadFile pW envW "missing").events = [.statted "missing" none] ∧
    (execLoop envW pW ["missing", "a.txt"]).result =
      (execLoop envW pW ["a.txt"]).result ∧
    (execLoop envW pW ["missing", "a.txt"]).events =
      .statted "missing" none :: (execLoop envW pW ["a.txt"]).events :=
  stat_failure_skips pW envW "missing" ["a.txt"] rfl

/-- C2: for a matched regular file processed outside dry-run, with
compression on the issued request's body is the gzip encoding of the
file's bytes and its content-encoding is `gzip`; with compression off the
body is the file's bytes unchanged and content-encoding is unset; and a
gzip-copy error makes the iteration — and with it the loop — fail with
exactly that error, issuing no request. -/
theorem compress_body_property (p : Plugin) (env : Env) (m : String) (st : FileInfo)
    (f : FileData) (hs : env.stat m = some st) (hd : st.IsDir = false)
    (hdr : p.DryRun = false) (ho : env.openFile m = .ok f) :
    (p.Compress = true → f.readErr = none →
      putsOf (uploadFile p env m).events =
        [⟨p.Bucket, targetKey p.Target m, p.Access, contentType m, some "gzip",
          env.gzip f.bytes⟩]) ∧
    (p.Compress = false →
      putsOf (uploadFile p env m).events =
        [⟨p.Bucket, targetKey p.Target m, p.Access, contentType m, none, f.bytes⟩]) ∧
    (∀ e rest, p.Compress = true → f.readErr = some e →
      (uploadFile p env m).result = .error e ∧
      putsOf (uploadFile p env m).events = [] ∧
      (execLoop env p (m :: rest)).result = .error e) := by
  refine ⟨?_, ?_, ?_⟩
  · intro hc hre
    simp [uploadFile, hs, hd, hdr, ho, hc, hre, putsOf]
  · intro hc
    simp [uploadFile, hs, hd, hdr, ho, hc, putsOf]
  · intro e rest hc hre
    have hu : (uploadFile p env m).result = .error e := by
      simp [uploadFile, hs, hd, hdr, ho, hc, hre]
    refine ⟨hu, ?_, ?_⟩
    · simp [uploadFile, hs, hd, hdr, ho, hc, hre, putsOf]
    · rw [execLoop_error_cons env p m rest e hu]

/-- Witness for C2: the compressed upload of a two-byte file. -/
theorem compress_body_property_witness :
    putsOf (uploadFile { pW with Compress := true } envW "a.txt").events =
      [⟨"bkt", targetKey "bundle" "a.txt", "private", contentType "a.txt",
        some "gzip", envW.gzip [104, 105]⟩] :=
  (compress_body_property { pW with Compress := true } envW "a.txt" ⟨false⟩
    ⟨[104, 105], none⟩ rfl rfl rfl rfl).1 rfl rfl

/-- The trace the spec prescribes for one dry-run iteration: the stat
call, then either nothing more (stat failure), the directory skip, or the
"Uploading file" log line carrying the computed key and content type. -/
def dryFileEvents (p : Plugin) (env : Env) (m : String) : List Event :=
  match env.stat m with
  | none => [.statted m none]
  | some st =>
    if st.IsDir then [.statted m (some st), .skippedDir m]
    else [.statted m (some st),
          .logUpload m p.Bucket (targetKey p.Target m) (contentType m)]

/-- The dry-run trace over a whole match list. -/
def dryEvents (p : Plugin) (env : Env) : List String → List Event
  | [] => []
  | m :: rest => dryFileEvents p env m ++ dryEvents p env rest

theorem uploadFile_dryRun (p : Plugin) (env : Env) (m : String)
    (hdr : p.DryRun = true) :
    uploadFile p env m = ⟨p, dryFileEvents p env m, .ok ()⟩ := by
  unfold uploadFile dryFileEvents
  cases h : env.stat m with
  | none => rfl
  | some st => cases hd : st.IsDir <;> simp [hd, hdr]

theorem execLoop_dryRun (p : Plugin) (env : Env) (ms : List String)
    (hdr : p.DryRun = true) :
    execLoop env p ms = ⟨p, dryEvents p env ms, .ok ()⟩ := by
  induction ms with
  | nil => rfl
  | cons m rest ih =>
    rw [execLoop_ok_cons env p m rest (by rw [uploadFile_dryRun p env m hdr])]
    rw [ih, uploadFile_dryRun p env m hdr]
    rfl

theorem putsOf_dryFileEvents (p : Plugin) (env : Env) (m : String) :
    putsOf (dryFileEvents p env m) = [] := by
  unfold dryFileEvents
  cases h : env.stat m with
  | none => rfl
  | some st => cases hd : st.IsDir <;> simp [hd, putsOf]

theorem opensOf_dryFileEvents (p : Plugin) (env : Env) (m : String) :
    opensOf (dryFileEvents p env m) = [] := by
  unfold dryFileEvents
  cases h : env.stat m with
  | none => rfl
  | some st => cases hd : st.IsDir <;> simp [hd, opensOf]

theorem putsOf_dryEvents (p : Plugin) (env : Env) (ms : List String) :
    putsOf (dryEvents p env ms) = [] := by
  induction ms with
  | nil => rfl
  | cons m rest ih =>
    unfold dryEvents putsOf
    rw [List.filterMap_append]
    have h1 := putsOf_dryFileEvents p env m
    unfold putsOf at h1 ih
    rw [h1, ih]
    rfl

theorem opensOf_dryEvents (p : Plugin) (env : Env) (ms : List String) :
    opensOf (dryEvents p env ms) = [] := by
  induction ms with
  | nil => rfl
  | cons m rest ih =>
    unfold dryEvents opensOf
    rw [List.filterMap_append]
    have h1 := opensOf_dryFileEvents p env m
    unfold opensOf at h1 ih
    rw [h1, ih]
    rfl

/-- C3: under dry-run the whole run succeeds having opened no file and
issued no PutObject request — for every configuration of the remaining
flags — while its trace is exactly the per-file stat / directory-skip /
key-and-content-type logging trace. -/
theorem dryRun_no_open_no_put (p : Plugin) (env : Env) (ms : List String)
    (hdr : p.DryRun = true)
    (hm : globMatches env.glob p.Source p.Exclude = .ok ms) :
    (Exec p env).result = .ok () ∧
    (Exec p env).events = dryEvents p env ms ∧
    opensOf (Exec p env).events = [] ∧
    putsOf (Exec p env).events = [] := by
  unfold Exec
  rw [hm]
  dsimp only
  rw [execLoop_dryRun p env ms hdr]
  exact ⟨rfl, rfl, opensOf_dryEvents p env ms, putsOf_dryEvents p env ms⟩

/-- Witness for C3: a dry run over the three matched files. -/
theorem dryRun_no_open_no_put_witness :
    (Exec { pW with DryRun := true } envW).result = .ok () ∧
    (Exec { pW with DryRun := true } envW).events =
      dryEvents { pW with DryRun := true } envW ["a.txt", "b.txt", "c.txt"] ∧
    opensOf (Exec { pW with DryRun := true } envW).events = [] ∧
    putsOf (Exec { pW with DryRun := true } envW).events = [] :=
  dryRun_no_open_no_put { pW with DryRun := true } envW ["a.txt", "b.txt", "c.txt"]
    rfl rfl

theorem execLoop_fail (env : Env) (p : Plugin) (mf : String) (e : String)
    (post : List String) (hk : (uploadFile p env mf).result = .error e) :
    ∀ pre : List String, (∀ x ∈ pre, (uploadFile p env x).result = .ok ()) →
      execLoop env p (pre ++ mf :: post) =
        ⟨p, eventsConcat p env pre ++ (uploadFile p env mf).events, .error e⟩ := by
  intro pre
  induction pre with
  | nil =>
    intro _
    rw [List.nil_append, execLoop_error_cons env p mf post e hk]
    rfl
  | cons x xs ih =>
    intro hpre
    have hx : (uploadFile p env x).result = .ok () := hpre x (by simp)
    have hxs : ∀ y ∈ xs, (uploadFile p env y).result = .ok () := by
      intro y hy
      exact hpre y (by simp [hy])
    rw [List.cons_append, execLoop_ok_cons env p x (xs ++ mf :: post) hx, ih hxs]
    simp [eventsConcat]

/-- C4: if the file at position `k` of the match list fails (open,
compression or write), the run returns exactly that error: the trace is
the per-file traces of the `k` successful files followed by the failing
file's trace — nothing after position `k` runs, nothing is retried, and
the requests already issued stand. -/
theorem exec_fail_fast (p : Plugin) (env : Env) (pre post : List String)
    (mf : String) (e : String)
    (hm : globMatches env.glob p.Source p.Exclude = .ok (pre ++ mf :: post))
    (hpre : ∀ x ∈ pre, (uploadFile p env x).result = .ok ())
    (hk : (uploadFile p env mf).result = .error e) :
    (Exec p env).result = .error e ∧
    (Exec p env).events =
      eventsConcat p env pre ++ (uploadFile p env mf).events := by
  unfold Exec
  rw [hm]
  dsimp only
  rw [execLoop_fail env p mf e post hk pre hpre]
  exact ⟨rfl, rfl⟩

/-- Witness for C4: the second of three matched files fails to open; the
first file's trace stands, the third file is never reached. -/
theorem exec_fail_fast_witness :
    (Exec pW envW).result = .error "open b.txt: permission denied" ∧
    (Exec pW envW).events =
      eventsConcat pW envW ["a.txt"] ++ (uploadFile pW envW "b.txt").events :=
  exec_fail_fast pW envW ["a.txt"] ["c.txt"] "b.txt" "open b.txt: permission denied"
    rfl (by decide) (by decide)

/-- C9: the run never modifies its configuration: the plugin record after
`Exec` — every field included — is the one it started with, on success and
on every error path. -/
theorem exec_preserves_plugin (p : Plugin) (env : Env) :
    (Exec p env).plugin = p := by
  unfold Exec
  cases h : globMatches env.glob p.Source p.Exclude with
  | error e => rfl
  | ok ms => exact execLoop_plugin env ms p

theorem uploadFile_recursive (p : Plugin) (b : Bool) (env : Env) (m : String) :
    (uploadFile { p with Recursive := b } env m).events = (uploadFile p env m).events ∧
    (uploadFile { p with Recursive := b } env m).result = (uploadFile p env m).result := by
  cases hst : env.stat m with
  | none => simp [uploadFile, hst]
  | some st =>
    cases hd : st.IsDir with
    | true => simp [uploadFile, hst, hd]
    | false =>
      cases hdr : p.DryRun with
      | true => simp [uploadFile, hst, hd, hdr]
      | false =>
        cases ho : env.openFile m with
        | error e => simp [uploadFile, hst, hd, hdr, ho]
        | ok f =>
          cases hc : p.Compress with
          | true =>
            cases hre : f.readErr with
            | none => simp [uploadFile, hst, hd, hdr, ho, hc, hre]
            | some e => simp [uploadFile, hst, hd, hdr, ho, hc, hre]
          | false => simp [uploadFile, hst, hd, hdr, ho, hc]

theorem execLoop_recursive (env : Env) (ms : List String) (p : Plugin) (b : Bool) :
    (execLoop env { p with Recursive := b } ms).events = (execLoop env p ms).events ∧
    (execLoop env { p with Recursive := b } ms).result = (execLoop env p ms).result := by
  induction ms with
  | nil => exact ⟨rfl, rfl⟩
  | cons m rest ih =>
    have hu := uploadFile_recursive p b env m
    cases hr : (uploadFile p env m).result with
    | error e =>
      have hr' : (uploadFile { p with Recursive := b } env m).result = .error e := by
        rw [hu.2, hr]
      rw [execLoop_error_cons env p m rest e hr,
          execLoop_error_cons env { p with Recursive := b } m rest e hr']
      exact ⟨hu.1, rfl⟩
    | ok u =>
      cases u
      have hr' : (uploadFile { p with Recursive := b } env m).result = .ok () := by
        rw [hu.2, hr]
      rw [execLoop_ok_cons env p m rest hr,
          execLoop_ok_cons env { p with Recursive := b } m rest hr']
      exact ⟨by rw [hu.1, ih.1], ih.2⟩

/-- C10: the `Recursive` flag is dead configuration: flipping it changes
neither the match set, nor the trace (in particular the sequence of issued
PutObject requests), nor the run's result. -/
theorem recursive_no_effect (p : Plugin) (b : Bool) (env : Env) :
    globMatches env.glob ({ p with Recursive := b }).Source
        ({ p with Recursive := b }).Exclude =
      globMatches env.glob p.Source p.Exclude ∧
    (Exec { p with Recursive := b } env).events = (Exec p env).events ∧
    putsOf (Exec { p with Recursive := b } env).events =
      putsOf (Exec p env).events ∧
    (Exec { p with Recursive := b } env).result = (Exec p env).result := by
  have hm : globMatches env.glob ({ p with Recursive := b }).Source
      ({ p with Recursive := b }).Exclude = globMatches env.glob p.Source p.Exclude := rfl
  have hev : (Exec { p with Recursive := b } env).events = (Exec p env).events ∧
      (Exec { p with Recursive := b } env).result = (Exec p env).result := by
    unfold Exec
    rw [hm]
    cases h : globMatches env.glob p.Source p.Exclude with
    | error e => exact ⟨rfl, rfl⟩
    | ok ms => exact execLoop_recursive env ms p b
  exact ⟨hm, hev.1, by rw [hev.1], hev.2⟩

end DroneS3
